import Mathlib

/-!
Shallow embedding of `src/convert.py` (an ASS → SRT subtitle converter) and
proofs of the specified properties of its encoding resolver, conversion loop,
batch driver, file selection and timestamp handling.
-/

/-- Outcome of running the statistical detector (`chardet.detect`) over the
file bytes, as observed by `detect_encoding` (lines 33-49): the call either
raises some exception, or returns a result whose `encoding` entry is either
a charset name or `None`. -/
inductive DetectorOutcome where
  | raises
  | returns (enc : Option String)
deriving DecidableEq, Repr

/-- `detect_encoding` (lines 43-49): returns the detector result, and `None`
when anything in the `try` block raises. -/
def detect_encoding : DetectorOutcome → Option String
  | .raises => none
  | .returns e => e

/-- The fixed fallback candidate list `encodings_to_try` (line 61). -/
def fallbackEncodings : List String :=
  ["utf-8", "utf-16", "utf-16-le", "utf-16-be", "gbk", "big5", "shift_jis", "cp1252"]

/-- Candidate-list construction (lines 60-66): the detected encoding is
inserted at index 0 when it is truthy (a Python string is truthy exactly when
it is non-empty); no deduplication is performed by the source. -/
def buildCandidates : Option String → List String
  | none => fallbackEncodings
  | some e => if e = "" then fallbackEncodings else e :: fallbackEncodings

/-- Outcome of one `pysubs2.load` + `subs.save` attempt under one encoding,
classified the way the `except` clauses of lines 79-89 classify exceptions:
success; a raised `UnicodeDecodeError`/`UnicodeError`; or any other raised
exception, with `codecMsg` recording whether its message contains the
substring `codec cant decode` that line 84 string-matches on. -/
inductive LoadOutcome where
  | ok
  | unicodeError
  | otherError (codecMsg : Bool)
deriving DecidableEq, Repr

/-- Result of `convert_ass_to_srt` for one file: success under some encoding
(`return True`, line 77), an error reported and `return False` (line 89), or
candidate exhaustion (`return False`, line 93). -/
inductive ConvertResult where
  | converted (encoding : String)
  | reportedError
  | exhausted
deriving DecidableEq, Repr

/-- An attempt outcome that the loop treats as a decode failure, advancing to
the next candidate: a Unicode error (line 79) or another exception whose
message matches the codec substring (line 84). -/
def isDecodeFailure : LoadOutcome → Bool
  | .ok => false
  | .unicodeError => true
  | .otherError m => m

/-- The candidate loop of `convert_ass_to_srt` (lines 68-93), instrumented
with the number of candidates consumed: try each encoding in order; on
success return it; on a decode failure `continue`; on any other error stop
and report. An empty list falls through to the exhausted branch. -/
def tryCandidates (attempt : String → LoadOutcome) : List String → ConvertResult × Nat
  | [] => (.exhausted, 0)
  | e :: rest =>
    match attempt e with
    | .ok => (.converted e, 1)
    | .unicodeError =>
      let r := tryCandidates attempt rest
      (r.1, r.2 + 1)
    | .otherError true =>
      let r := tryCandidates attempt rest
      (r.1, r.2 + 1)
    | .otherError false => (.reportedError, 1)

/-- `convert_ass_to_srt` (lines 52-93): build the candidate list from the
detector outcome, then run the candidate loop. -/
def convert_ass_to_srt (d : DetectorOutcome) (attempt : String → LoadOutcome) :
    ConvertResult × Nat :=
  tryCandidates attempt (buildCandidates (detect_encoding d))

/-- The per-file loop of `main` (lines 114-125): each file is converted and,
depending on its boolean outcome, incremented into `converted_count` or
`failed_count`; the pair of counts is what the summary (lines 127-131)
reports. -/
def mainLoop (convertFile : String → Bool) : List String → Nat × Nat
  | [] => (0, 0)
  | f :: rest =>
    let r := mainLoop convertFile rest
    if convertFile f then (r.1 + 1, r.2) else (r.1, r.2 + 1)

/-- Helper: a block of candidates that all produce decode failures is skipped
entirely; the loop result is that of the remaining candidates, with the
skipped block added to the consumption count. -/
theorem tryCandidates_skip (attempt : String → LoadOutcome) (pre rest : List String)
    (h : ∀ e ∈ pre, isDecodeFailure (attempt e) = true) :
    tryCandidates attempt (pre ++ rest)
      = ((tryCandidates attempt rest).1, (tryCandidates attempt rest).2 + pre.length) := by
  induction pre with
  | nil => simp
  | cons e pre ih =>
    have he : isDecodeFailure (attempt e) = true := h e (by simp)
    have hrest : ∀ x ∈ pre, isDecodeFailure (attempt x) = true :=
      fun x hx => h x (by simp [hx])
    cases hae : attempt e with
    | ok => rw [hae] at he; simp [isDecodeFailure] at he
    | unicodeError =>
      simp only [List.cons_append, tryCandidates, List.append_eq, hae, ih hrest, List.length_cons]
      simp only [Prod.mk.injEq, true_and]
      omega
    | otherError m =>
      cases m with
      | false => rw [hae] at he; simp [isDecodeFailure] at he
      | true =>
        simp only [List.cons_append, tryCandidates, List.append_eq, hae, ih hrest, List.length_cons]
        simp only [Prod.mk.injEq, true_and]
        omega

/-- C1: if every candidate before `e` only fails to decode and the attempt
under `e` raises a non-encoding error (not a Unicode error and not matched by
the codec-substring check, i.e. the document is structurally invalid although
`e` decoded the bytes), the loop stops at `e` and reports the error: the
candidates after `e` are never attempted, and exactly the candidates up to
and including `e` are consumed. -/
theorem structural_failure_short_circuits (attempt : String → LoadOutcome)
    (pre rest : List String) (e : String)
    (hpre : ∀ c ∈ pre, isDecodeFailure (attempt c) = true)
    (he : attempt e = .otherError false) :
    tryCandidates attempt (pre ++ e :: rest) = (.reportedError, pre.length + 1) := by
  rw [tryCandidates_skip attempt pre (e :: rest) hpre]
  simp only [tryCandidates, he]
  simp [Nat.add_comm]

theorem structural_failure_short_circuits_witness :
    tryCandidates
        (fun c => if c = "utf-8" then .unicodeError else .otherError false)
        (["utf-8"] ++ "utf-16" :: ["gbk"])
      = (.reportedError, 2) :=
  structural_failure_short_circuits _ (["utf-8"]) (["gbk"]) ("utf-16")
    (by decide) (by decide)

/-- C7: candidates are consumed strictly in order and only until one
succeeds: if everything before `e` only fails to decode and the load-and-save
attempt under `e` succeeds, the loop returns success with `e` immediately;
the candidates after `e` are never attempted. -/
theorem first_success_stops (attempt : String → LoadOutcome)
    (pre rest : List String) (e : String)
    (hpre : ∀ c ∈ pre, isDecodeFailure (attempt c) = true)
    (he : attempt e = .ok) :
    tryCandidates attempt (pre ++ e :: rest) = (.converted e, pre.length + 1) := by
  rw [tryCandidates_skip attempt pre (e :: rest) hpre]
  simp only [tryCandidates, he]
  simp [Nat.add_comm]

theorem first_success_stops_witness :
    tryCandidates
        (fun c => if c = "utf-16" then .ok else .unicodeError)
        (["utf-8"] ++ "utf-16" :: ["gbk"])
      = (.converted ("utf-16"), 2) :=
  first_success_stops _ (["utf-8"]) (["gbk"]) ("utf-16") (by decide) (by decide)

/-- C3: if every candidate built for the file produces only decode failures,
`convert_ass_to_srt` falls out of the loop and returns the
encoding-exhausted failure (line 93), not any other outcome. -/
theorem all_decode_failures_exhausted (d : DetectorOutcome)
    (attempt : String → LoadOutcome)
    (h : ∀ c ∈ buildCandidates (detect_encoding d), isDecodeFailure (attempt c) = true) :
    (convert_ass_to_srt d attempt).1 = .exhausted := by
  unfold convert_ass_to_srt
  have h2 := tryCandidates_skip attempt (buildCandidates (detect_encoding d)) [] h
  rw [List.append_nil] at h2
  rw [h2]
  simp [tryCandidates]

theorem all_decode_failures_exhausted_witness :
    (convert_ass_to_srt .raises (fun _ => .unicodeError)).1 = .exhausted :=
  all_decode_failures_exhausted .raises _ (by decide)

/-- C2 counterexample: the source performs no deduplication — when the
detector guesses an encoding that already sits in the fallback list (here
utf-8), the candidate list contains that label twice. -/
theorem candidate_list_duplicate : ¬ (buildCandidates (some ("utf-8"))).Nodup := by
  decide

/-- C2 (amended): the candidate list is the detected encoding prepended to
the fixed fallback list with no deduplication; whenever the (non-empty)
guess coincides with a fallback entry, the list has a duplicate. -/
theorem candidate_list_no_dedup (g : String) (hg : g ≠ "") :
    buildCandidates (some g) = g :: fallbackEncodings ∧
      (g ∈ fallbackEncodings → ¬ (buildCandidates (some g)).Nodup) := by
  constructor
  · simp [buildCandidates, hg]
  · intro hmem
    simp only [buildCandidates, if_neg hg]
    exact fun hnd => (List.nodup_cons.mp hnd).1 hmem

theorem candidate_list_no_dedup_witness :
    buildCandidates (some ("utf-8")) = "utf-8" :: fallbackEncodings ∧
      ("utf-8" ∈ fallbackEncodings → ¬ (buildCandidates (some ("utf-8"))).Nodup) :=
  candidate_list_no_dedup ("utf-8") (by decide)

/-- C5: the resolver never fails — when the detector raises,
`detect_encoding` swallows the exception and returns `None`, and whenever
the detected value is `None` the candidate list is exactly the fixed
fallback list alone. -/
theorem resolver_total_fallback :
    detect_encoding .raises = none ∧
      ∀ d : DetectorOutcome, detect_encoding d = none →
        buildCandidates (detect_encoding d) = fallbackEncodings := by
  refine ⟨rfl, fun d hd => ?_⟩
  rw [hd]
  rfl

theorem resolver_total_fallback_witness :
    buildCandidates (detect_encoding .raises) = fallbackEncodings :=
  resolver_total_fallback.2 .raises (by rfl)

/-- C6: the fixed fallback list is ordered UTF-8 first, then UTF-16 in both
byte orders, then the legacy code pages for Simplified Chinese (gbk),
Traditional Chinese (big5), Japanese (shift_jis) and Western European
(cp1252); any (non-empty) detector guess is placed before all of them. -/
theorem fallback_order_and_guess_first (g : String) (hg : g ≠ "") :
    fallbackEncodings
        = ["utf-8", "utf-16", "utf-16-le", "utf-16-be", "gbk", "big5", "shift_jis", "cp1252"] ∧
      buildCandidates (some g) = g :: fallbackEncodings :=
  ⟨rfl, by simp [buildCandidates, hg]⟩

theorem fallback_order_and_guess_first_witness :
    fallbackEncodings
        = ["utf-8", "utf-16", "utf-16-le", "utf-16-be", "gbk", "big5", "shift_jis", "cp1252"] ∧
      buildCandidates (some ("latin-1")) = "latin-1" :: fallbackEncodings :=
  fallback_order_and_guess_first ("latin-1") (by decide)

/-- C4: a per-file failure never aborts the batch — the summary counts are
exactly the number of files whose conversion returned `True` and the number
whose conversion returned `False`: every file in the list contributes its
own outcome, whatever the outcomes of the files before it. -/
theorem batch_never_aborts (convertFile : String → Bool) (files : List String) :
    mainLoop convertFile files
      = (files.countP convertFile, files.countP (fun f => ! convertFile f)) := by
  induction files with
  | nil => simp [mainLoop]
  | cons f rest ih =>
    by_cases hf : convertFile f <;>
      simp [mainLoop, ih, List.countP_cons, hf]

/-- C10: the summary counts partition the input set — converted plus failed
equals the total number of files found, each file counted exactly once. -/
theorem counts_partition (convertFile : String → Bool) (files : List String) :
    (mainLoop convertFile files).1 + (mainLoop convertFile files).2 = files.length := by
  induction files with
  | nil => simp [mainLoop]
  | cons f rest ih =>
    by_cases hf : convertFile f <;> simp [mainLoop, hf] <;> omega

/-- Modelled from the spec: a valid ASS timestamp `H:MM:SS.cc` at
centisecond resolution (the parsing itself lives in the third-party
`pysubs2` library invoked at lines 71-74, not in this repository). -/
structure AssTime where
  h : Nat
  m : Nat
  s : Nat
  cs : Nat
deriving DecidableEq, Repr

/-- Validity of the field ranges of an ASS timestamp. -/
def AssTime.valid (t : AssTime) : Prop := t.m < 60 ∧ t.s < 60 ∧ t.cs < 100

/-- Modelled from the spec: decoding an ASS timestamp into a millisecond
integer, the centisecond field converting exactly as `cc * 10`. -/
def assTimeToMs (t : AssTime) : Nat :=
  ((t.h * 60 + t.m) * 60 + t.s) * 1000 + t.cs * 10

/-- Modelled from the spec: an SRT timestamp `HH:MM:SS,mmm`. -/
structure SrtTime where
  h : Nat
  m : Nat
  s : Nat
  ms : Nat
deriving DecidableEq, Repr

/-- Modelled from the spec: SRT-encoding a millisecond value into the
`HH:MM:SS,mmm` fields. -/
def msToSrtTime (n : Nat) : SrtTime :=
  ⟨n / 3600000, n / 60000 % 60, n / 1000 % 60, n % 1000⟩

/-- The total millisecond value denoted by an SRT timestamp. -/
def srtTimeToMs (t : SrtTime) : Nat :=
  ((t.h * 60 + t.m) * 60 + t.s) * 1000 + t.ms

/-- Helper: SRT-encoding any millisecond value loses nothing. -/
theorem srtTime_roundtrip (n : Nat) : srtTimeToMs (msToSrtTime n) = n := by
  simp only [srtTimeToMs, msToSrtTime]
  omega

/-- C8: for every valid ASS timestamp, decoding it to milliseconds and then
SRT-encoding it yields a timestamp denoting exactly the same millisecond
value, whose millisecond field is exactly `cc * 10`. -/
theorem timestamp_roundtrip (t : AssTime) (hv : t.valid) :
    srtTimeToMs (msToSrtTime (assTimeToMs t)) = assTimeToMs t ∧
      (msToSrtTime (assTimeToMs t)).ms = t.cs * 10 := by
  obtain ⟨hm, hs, hcs⟩ := hv
  refine ⟨srtTime_roundtrip _, ?_⟩
  simp only [msToSrtTime, assTimeToMs]
  omega

theorem timestamp_roundtrip_witness :
    srtTimeToMs (msToSrtTime (assTimeToMs ⟨0, 0, 1, 50⟩)) = assTimeToMs ⟨0, 0, 1, 50⟩ ∧
      (msToSrtTime (assTimeToMs ⟨0, 0, 1, 50⟩)).ms = 50 * 10 :=
  timestamp_roundtrip ⟨0, 0, 1, 50⟩ ⟨by decide, by decide, by decide⟩

/-- Matching of a star-free glob pattern (a literal) against a name:
character-for-character equality, hence case-sensitive. -/
def matchLit : List Char → List Char → Bool
  | [], [] => true
  | [], _ :: _ => false
  | _ :: _, [] => false
  | p :: ps, n :: ns => p == n && matchLit ps ns

/-- Matching of the glob pattern `*` followed by the literal `lit` against a
name, per fnmatch semantics as used by `input_dir.glob("*.ass")` at
line 105: the star absorbs any (possibly empty) run of leading characters
and the rest of the name must equal the literal. The pattern contains no
path separator, so the match is non-recursive. -/
def matchStarLit (lit : List Char) : List Char → Bool
  | [] => matchLit lit []
  | n :: ns => matchLit lit (n :: ns) || matchStarLit lit ns

/-- File selection (line 105): the directory entries whose names match the
`*.ass` pattern, in listing order. -/
def selectAssFiles (names : List (List Char)) : List (List Char) :=
  names.filter (fun n => matchStarLit ((".ass").toList) n)

/-- Index of the last occurrence of a character in a name, as
`str.rfind(".")` computes it inside `PurePath.stem` and `PurePath.suffix`,
which line 119 uses through `ass_file.stem`. -/
def rfindChar (c : Char) : List Char → Option Nat
  | [] => none
  | x :: xs =>
    match rfindChar c xs with
    | some i => some (i + 1)
    | none => if x = c then some 0 else none

/-- `PurePath.stem` of a file name: the name with its suffix removed, the
suffix starting at the last dot provided that dot is neither the leading
character nor the final character of the name. -/
def stem (name : List Char) : List Char :=
  match rfindChar '.' name with
  | some i => if 0 < i ∧ i < name.length - 1 then name.take i else name
  | none => name

/-- `PurePath.suffix` of a file name, by the same last-dot rule. -/
def fileSuffix (name : List Char) : List Char :=
  match rfindChar '.' name with
  | some i => if 0 < i ∧ i < name.length - 1 then name.drop i else []
  | none => []

/-- Output-name construction (line 119): `ass_file.stem + ".srt"`. -/
def srtName (name : List Char) : List Char := stem name ++ (".srt").toList

/-- Helper: a literal pattern matches exactly itself. -/
theorem matchLit_iff (lit : List Char) :
    ∀ name, matchLit lit name = true ↔ name = lit := by
  induction lit with
  | nil => intro name; cases name <;> simp [matchLit]
  | cons p ps ih =>
    intro name
    cases name with
    | nil => simp [matchLit]
    | cons n ns =>
      simp only [matchLit, Bool.and_eq_true, beq_iff_eq, ih ns, List.cons.injEq]
      constructor
      · rintro ⟨h1, h2⟩; exact ⟨h1.symm, h2⟩
      · rintro ⟨h1, h2⟩; exact ⟨h1.symm, h2⟩

/-- Helper: the star-then-literal pattern matches exactly the names ending
in the literal. -/
theorem matchStarLit_iff (lit : List Char) :
    ∀ name, matchStarLit lit name = true ↔ lit <:+ name := by
  intro name
  induction name with
  | nil =>
    simp only [matchStarLit, matchLit_iff, List.suffix_nil]
    exact eq_comm
  | cons n ns ih =>
    simp only [matchStarLit, Bool.or_eq_true, matchLit_iff, ih, List.suffix_cons_iff]
    constructor
    · rintro (h | h)
      · exact Or.inl h.symm
      · exact Or.inr h
    · rintro (h | h)
      · exact Or.inl h.symm
      · exact Or.inr h

/-- Helper: where the last dot of `s ++ t` sits when `t` contains a dot. -/
theorem rfindChar_append_of_some (c : Char) (s t : List Char) (i : Nat)
    (h : rfindChar c t = some i) :
    rfindChar c (s ++ t) = some (s.length + i) := by
  induction s with
  | nil => simpa using h
  | cons x s ih =>
    simp only [List.cons_append, rfindChar, List.append_eq, ih, List.length_cons]
    congr 1
    omega

/-- Helper: unfolding of `stem` when the name contains a dot. -/
theorem stem_eq_some (name : List Char) (i : Nat) (h : rfindChar '.' name = some i) :
    stem name = if 0 < i ∧ i < name.length - 1 then name.take i else name := by
  rw [stem, h]

/-- Helper: unfolding of `stem` when the name contains no dot. -/
theorem stem_eq_none (name : List Char) (h : rfindChar '.' name = none) :
    stem name = name := by
  rw [stem, h]

/-- Helper: unfolding of `fileSuffix` when the name contains a dot. -/
theorem fileSuffix_eq_some (name : List Char) (i : Nat) (h : rfindChar '.' name = some i) :
    fileSuffix name = if 0 < i ∧ i < name.length - 1 then name.drop i else [] := by
  rw [fileSuffix, h]

/-- Helper: the stem and suffix of a name built as `s ++ ".srt"` with `s`
non-empty are `s` and `".srt"`. -/
theorem stem_fileSuffix_append_srt (s : List Char) (hs : s ≠ []) :
    stem (s ++ (".srt").toList) = s ∧ fileSuffix (s ++ (".srt").toList) = (".srt").toList := by
  have hdot : rfindChar '.' ((".srt").toList) = some 0 := by decide
  have hr := rfindChar_append_of_some '.' s ((".srt").toList) 0 hdot
  rw [Nat.add_zero] at hr
  have hlen : 0 < s.length := List.length_pos.mpr hs
  have hlist : ((".srt").toList).length = 4 := by decide
  have hlen4 : (s ++ (".srt").toList).length = s.length + 4 := by
    rw [List.length_append, hlist]
  have hcond : 0 < s.length ∧ s.length < (s ++ (".srt").toList).length - 1 := by
    omega
  constructor
  · rw [stem_eq_some _ _ hr, if_pos hcond]
    exact List.take_left s _
  · rw [fileSuffix_eq_some _ _ hr, if_pos hcond]
    exact List.drop_left s _

/-- Helper: the stem of a non-empty name is non-empty. -/
theorem stem_ne_nil (name : List Char) (h : name ≠ []) : stem name ≠ [] := by
  cases hr : rfindChar '.' name with
  | none => rw [stem_eq_none _ hr]; exact h
  | some i =>
    rw [stem_eq_some _ _ hr]
    by_cases hc : 0 < i ∧ i < name.length - 1
    · rw [if_pos hc]
      intro ht
      rcases List.take_eq_nil_iff.mp ht with h0 | h0
      · omega
      · exact h h0
    · rw [if_neg hc]; exact h

/-- C9: file selection takes exactly the directory entries whose names match
the case-sensitive `*.ass` pattern, i.e. the names ending in `.ass`; and for
every such name the constructed output name carries the same base name
(stem) with the extension `.srt`. -/
theorem file_selection_correct :
    (∀ (names : List (List Char)) (name : List Char),
        name ∈ selectAssFiles names ↔ name ∈ names ∧ (".ass").toList <:+ name) ∧
      ∀ name : List Char, (".ass").toList <:+ name →
        stem (srtName name) = stem name ∧ fileSuffix (srtName name) = (".srt").toList := by
  constructor
  · intro names name
    simp [selectAssFiles, List.mem_filter, matchStarLit_iff]
  · intro name hsuf
    have hne : name ≠ [] := by
      intro h0
      rw [h0] at hsuf
      have := List.suffix_nil.mp hsuf
      simp at this
    have hstem := stem_ne_nil name hne
    rw [srtName]
    exact stem_fileSuffix_append_srt (stem name) hstem

theorem file_selection_correct_witness :
    (("movie.ass").toList ∈ selectAssFiles [("movie.ass").toList, ("movie.ASS").toList]
        ↔ ("movie.ass").toList ∈ [("movie.ass").toList, ("movie.ASS").toList]
            ∧ (".ass").toList <:+ ("movie.ass").toList) ∧
      (stem (srtName (("movie.ass").toList)) = stem (("movie.ass").toList)
        ∧ fileSuffix (srtName (("movie.ass").toList)) = (".srt").toList) :=
  ⟨file_selection_correct.1 _ _, file_selection_correct.2 _ (by decide)⟩
